import Mathlib

/-!
Verification of the state-diff detection engine of `gitCopy.py`: a shallow
embedding of the monitor loop (branch creation, commit detection, baseline
elision), the report read-back with its filters, and startup validation.
External effects (the `git` subprocess, the filesystem, JSON parsing) are
modelled as explicit inputs: each tick is given the textual query results
the Python code would have obtained from them.
-/

namespace GitMonitor

/-- Commit metadata as parsed by `get_latest_commit` (`gitCopy.py` lines 60-68):
hash, unix timestamp, message.  The format string `%H|%ct|%s` carries no
author and no file list. -/
structure Commit where
  hash : String
  timestamp : Int
  message : String
deriving DecidableEq, Repr

/-- The events `monitor_repo` builds and hands to `log_event`
(`gitCopy.py` lines 107-111 and 133-139); `push` is the variant the spec
describes for push detection (absent from `gitCopy.py` itself). -/
inductive Event where
  | branch_creation (branch : String) (timestamp : Int)
  | commit (branch commit_hash commit_message : String) (commit_timestamp : Int)
  | push (branch : String) (timestamp : Int)
deriving DecidableEq, Repr

/-- The keys of the JSON object built for each event before `log_event`
adds `logged_at` (`gitCopy.py` lines 107-111 for branch creation and
lines 133-139 for commits; the push field set is the spec's §6). -/
def eventRecordKeys : Event → List String
  | Event.branch_creation _ _ => ["event_type", "branch", "timestamp"]
  | Event.commit _ _ _ _ =>
      ["event_type", "branch", "commit_hash", "commit_message", "commit_timestamp"]
  | Event.push _ _ => ["event_type", "branch", "timestamp"]

/-- Boolean test: is this a branch-creation event for branch `b`? -/
def isCreationFor (b : String) : Event → Bool
  | Event.branch_creation b' _ => b' == b
  | _ => false

/-- Boolean test: is this a commit event for branch `b`? -/
def isCommitFor (b : String) : Event → Bool
  | Event.commit b' _ _ _ => b' == b
  | _ => false

/-- Boolean test: is this a push event for branch `b`? -/
def isPushFor (b : String) : Event → Bool
  | Event.push b' _ => b' == b
  | _ => false

/-- Lookup in a Python-dict modelled as an association list. -/
def dlookup : List (String × String) → String → Option String
  | [], _ => none
  | (k, v) :: rest, key => if k = key then some v else dlookup rest key

/-- Python dict assignment `d[k] = v`: overwrite in place if the key exists,
append otherwise. -/
def dictInsert : List (String × String) → String → String → List (String × String)
  | [], k, v => [(k, v)]
  | (k', v') :: rest, k, v =>
      if k' = k then (k, v) :: rest else (k', v') :: dictInsert rest k v

/-- Python's `str.strip()`: drop leading and trailing whitespace from the
string's character list. -/
def pyStrip (s : String) : String :=
  ⟨((s.data.dropWhile Char.isWhitespace).reverse.dropWhile Char.isWhitespace).reverse⟩

/-- `get_current_branches` (`gitCopy.py` lines 37-45): `output` is the
stripped stdout of `git branch --format %(refname:short)` (`none` when the
command failed).  A falsy output (error or empty string) yields `[]`. -/
def get_current_branches (output : Option String) : List String :=
  match output with
  | some s => if s.isEmpty then [] else (s.splitOn "\n").map pyStrip
  | none => []

/-- `get_latest_commit` (`gitCopy.py` lines 47-71): parses the stripped
stdout of `git log <branch> -1 --pretty=format:%H|%ct|%s`.  Python's
`output.split("|", 2)` must produce three parts (otherwise the unpacking
raises and `None` is returned), so at least two separators are required;
everything after the second `|` is the message. -/
def get_latest_commit (output : Option String) : Option Commit :=
  match output with
  | none => none
  | some s =>
    if s.isEmpty then none
    else
      match s.splitOn "|" with
      | h :: t :: rest =>
        if rest.isEmpty then none
        else
          match t.toInt? with
          | some ts => some ⟨h, ts, String.intercalate "|" rest⟩
          | none => none
      | _ => none

/-- One tick's view of the repository: the branch list returned by
`get_current_branches` and, per branch, the `get_latest_commit` result.
Within one tick the query function is fixed, reflecting that both
`get_latest_commit` calls of the tick body see the same repository state. -/
structure Snapshot where
  branches : List String
  head_of : String → Option Commit

/-- The monitor's mutable state (`gitCopy.py` lines 91-92):
`known_branches` and the dict `branch_commits` from branch name to
last-seen commit hash. -/
structure MonitorState where
  known_branches : List String
  branch_commits : List (String × String)
deriving DecidableEq, Repr

/-- The new-branch loop (`gitCopy.py` lines 106-117): for each branch in
`current - known`, log a `branch_creation` event, then store (never log)
its head hash if the head query succeeds. -/
def newBranchLoop (h : String → Option Commit) (now : Int) :
    List (String × String) → List String → List (String × String) × List Event
  | d, [] => (d, [])
  | d, b :: rest =>
    let d' := match h b with
      | some c => dictInsert d b c.hash
      | none => d
    let r := newBranchLoop h now d' rest
    (r.1, Event.branch_creation b now :: r.2)

/-- The dict updates of the new-branch loop in isolation; also the seeding
loop run before the monitor loop starts (`gitCopy.py` lines 95-98). -/
def seedCommits (h : String → Option Commit) :
    List (String × String) → List String → List (String × String)
  | d, [] => d
  | d, b :: rest =>
    seedCommits h (match h b with | some c => dictInsert d b c.hash | none => d) rest

/-- The commit-detection loop (`gitCopy.py` lines 122-142): for each branch
in the (updated) known set, skip it if the head query fails; silently store
the hash if the branch has no stored hash yet; otherwise log a commit event
iff the head hash differs from the stored one, and update the store. -/
def commitLoop (h : String → Option Commit) :
    List (String × String) → List String → List (String × String) × List Event
  | d, [] => (d, [])
  | d, b :: rest =>
    match h b with
    | none => commitLoop h d rest
    | some c =>
      match dlookup d b with
      | none => commitLoop h (dictInsert d b c.hash) rest
      | some h0 =>
        if c.hash = h0 then commitLoop h d rest
        else
          let r := commitLoop h (dictInsert d b c.hash) rest
          (r.1, Event.commit b c.hash c.message c.timestamp :: r.2)

/-- One tick body (`gitCopy.py` lines 102-142): detect new branches against
the known set, replace the known set by the current one, then run commit
detection over the current branches.  Returns the updated state and the
events logged during the tick, in logging order. -/
def tick (st : MonitorState) (snap : Snapshot) (now : Int) : MonitorState × List Event :=
  let current := snap.branches
  let newB := current.filter (fun b => !(st.known_branches.contains b))
  let r1 := newBranchLoop snap.head_of now st.branch_commits newB
  let r2 := commitLoop snap.head_of r1.1 current
  (⟨current, r2.1⟩, r1.2 ++ r2.2)

/-- The startup seeding before the monitor loop (`gitCopy.py` lines 88-98):
the known set becomes the first snapshot's branches, every successful head
query seeds `branch_commits`, and no `log_event` call occurs (the second
component is the list of events logged during seeding). -/
def initMonitor (snap : Snapshot) : MonitorState × List Event :=
  (⟨snap.branches, seedCommits snap.head_of [] snap.branches⟩, [])

/-- Outcome of one tick body: either it completes with a new state and its
logged events, or it raises somewhere, leaving whatever state it reached. -/
inductive TickOutcome where
  | ok (st : MonitorState) (evs : List Event)
  | raised (st : MonitorState) (msg : String)

/-- The `try`/`except` wrapper around the tick body (`gitCopy.py`
lines 101-145): a raised exception is caught and logged, the state reached
so far is kept, and control falls through to the sleep. -/
def guardTick (body : MonitorState → TickOutcome) (st : MonitorState) :
    MonitorState × List Event :=
  match body st with
  | TickOutcome.ok st' evs => (st', evs)
  | TickOutcome.raised st' _ => (st', [])

/-- The scheduler loop (`gitCopy.py` lines 100-147) run over a finite
schedule of tick bodies: each scheduled tick is attempted through
`guardTick`; the second component counts the ticks attempted. -/
def monitorLoop : List (MonitorState → TickOutcome) → MonitorState → MonitorState × Nat
  | [], st => (st, 0)
  | body :: rest, st =>
    let step := guardTick body st
    let r := monitorLoop rest step.1
    (r.1, r.2 + 1)

/-- A persisted event record as `generate_report` sees it after
`json.loads`: only `event_type` and `logged_at` matter to the filters
(`event.get` returns `none` for a missing key); `data` stands for the rest
of the record. -/
structure EventRec where
  event_type : Option String
  logged_at : Option Int
  data : String
deriving DecidableEq, Repr

/-- Python truthiness of an optional string: `None` and `""` are falsy. -/
def truthyStr : Option String → Bool
  | none => false
  | some s => !s.isEmpty

/-- Python truthiness of an optional integer: `None` and `0` are falsy. -/
def truthyInt : Option Int → Bool
  | none => false
  | some n => n != 0

/-- The filter chain of `generate_report` (`gitCopy.py` lines 189-198):
a record is kept unless a truthy `event_type` differs from the record's, or
a truthy `start_date` exceeds `logged_at` (defaulted to 0), or a truthy
`end_date` is below it.  The `developer` filter is a placeholder that never
rejects anything. -/
def passesFilters (event_type : Option String) (start_date end_date : Option Int)
    (e : EventRec) : Bool :=
  if truthyStr event_type && (e.event_type != event_type) then false
  else if truthyInt start_date && decide (e.logged_at.getD 0 < start_date.getD 0) then false
  else if truthyInt end_date && decide (end_date.getD 0 < e.logged_at.getD 0) then false
  else true

/-- `generate_report` (`gitCopy.py` lines 177-206) over the log file's
lines: strip each line, skip blank lines, skip lines `parse` (modelling
`json.loads`) rejects, keep the parsed records that pass the filters, in
file order.  The `developer` argument is accepted and ignored, as in the
source. -/
def generate_report (parse : String → Option EventRec) (developer : Option String)
    (event_type : Option String) (start_date end_date : Option Int) :
    List String → List EventRec
  | [] => []
  | line :: rest =>
    let l := pyStrip line
    if l.isEmpty then generate_report parse developer event_type start_date end_date rest
    else
      match parse l with
      | none => generate_report parse developer event_type start_date end_date rest
      | some e =>
        if passesFilters event_type start_date end_date e then
          e :: generate_report parse developer event_type start_date end_date rest
        else generate_report parse developer event_type start_date end_date rest

/-- The filesystem queries `validate_repo_path` makes, as pure inputs:
`isDir` models `os.path.isdir` and `abspath` models `os.path.abspath`. -/
structure Env where
  isDir : String → Bool
  abspath : String → String

/-- `validate_repo_path` (`gitCopy.py` lines 213-225): `sys.exit(1)` is
modelled as `Except.error 1`; a valid path returns its absolute form. -/
def validate_repo_path (env : Env) (path : String) : Except Nat String :=
  let abs_path := env.abspath path
  if !(env.isDir abs_path) then Except.error 1
  else if !(env.isDir (abs_path ++ "/.git")) then Except.error 1
  else Except.ok abs_path

/-- What `main` does with the repo argument before anything else runs. -/
inductive StartOutcome where
  | exited (code : Nat)
  | monitoring (repoPath : String)
deriving DecidableEq, Repr

/-- The startup path of `main` (`gitCopy.py` lines 251-264): the repo path
is validated first; only on success does the monitoring thread start. -/
def main_start (env : Env) (path : String) : StartOutcome :=
  match validate_repo_path env path with
  | Except.error c => StartOutcome.exited c
  | Except.ok abs_path => StartOutcome.monitoring abs_path

/-- Modelled from the spec: push detection is absent from `gitCopy.py`
(the spec attributes it to the repository's other historical variants).
Per §4.1, `divergentBranches` returns the branches whose remote head
differs from the local head at query time. -/
def divergentBranches (branches : List String)
    (localHead remoteHead : String → Option String) : List String :=
  branches.filter (fun b => remoteHead b != localHead b)

/-- Modelled from the spec: DiffEngine step 3 (§4.2) appends one
`PushDetected` per divergent branch after the creation and commit events,
independently of steps 1-2. -/
def tickWithPush (st : MonitorState) (snap : Snapshot)
    (localHead remoteHead : String → Option String) (now : Int) :
    MonitorState × List Event :=
  let r := tick st snap now
  (r.1, r.2 ++ (divergentBranches snap.branches localHead remoteHead).map
      (fun b => Event.push b now))

/-! ### Concrete sample inputs used to exercise the definitions -/

/-- A commit used as the stable baseline head in examples. -/
def sampleCommitA : Commit := ⟨"aaa1", 100, "init"⟩

/-- A commit used as a fresh head in examples. -/
def sampleCommitB : Commit := ⟨"bbb2", 200, "fix"⟩

/-- A head-query function: `main` points at `sampleCommitB`, `dev` at
`sampleCommitA`, everything else has no commits. -/
def sampleHead (b : String) : Option Commit :=
  if b = "main" then some sampleCommitB
  else if b = "dev" then some sampleCommitA
  else none

/-- The snapshot of the spec's first scenario: one branch `main` whose head
is commit `A`. -/
def snapMainA : Snapshot :=
  ⟨["main"], fun b => if b = "main" then some ⟨"A", 100, "init"⟩ else none⟩

/-- A concrete stand-in for `json.loads` on two well-formed log lines. -/
def sampleParse (s : String) : Option EventRec :=
  if s = "cline" then some ⟨some "commit", some 10, "c1"⟩
  else if s = "pline" then some ⟨some "push", some 20, "p1"⟩
  else none

/-- A filesystem on which no path is a directory. -/
def envInvalid : Env := ⟨fun _ => false, fun p => "/abs/" ++ p⟩

/-- A filesystem on which every path is a directory containing `.git`. -/
def envValid : Env := ⟨fun _ => true, fun p => "/abs/" ++ p⟩

/-! ### Dictionary lemmas -/

theorem dlookup_dictInsert_self (d : List (String × String)) (k v : String) :
    dlookup (dictInsert d k v) k = some v := by
  induction d with
  | nil => simp [dictInsert, dlookup]
  | cons p rest ih =>
    obtain ⟨k', v'⟩ := p
    by_cases h : k' = k
    · simp [dictInsert, h, dlookup]
    · simp [dictInsert, h, dlookup, ih]

theorem dlookup_dictInsert_ne (d : List (String × String)) (k v key : String)
    (h : key ≠ k) : dlookup (dictInsert d k v) key = dlookup d key := by
  have hk : k ≠ key := Ne.symm h
  induction d with
  | nil => simp [dictInsert, dlookup, hk]
  | cons p rest ih =>
    obtain ⟨k', v'⟩ := p
    by_cases hkk : k' = k
    · subst hkk
      simp [dictInsert, dlookup, hk]
    · simp only [dictInsert, if_neg hkk, dlookup]
      by_cases hk2 : k' = key
      · simp [hk2]
      · simp [hk2, ih]

/-! ### Seeding-loop lemmas -/

theorem seedCommits_lookup_not_mem (h : String → Option Commit)
    (bs : List String) (b : String) :
    ∀ d, b ∉ bs → dlookup (seedCommits h d bs) b = dlookup d b := by
  induction bs with
  | nil => intro d _; rfl
  | cons b' rest ih =>
    intro d hb
    simp only [List.mem_cons, not_or] at hb
    simp only [seedCommits]
    cases hc : h b' with
    | none => simpa using ih _ hb.2
    | some c =>
      rw [ih _ hb.2, dlookup_dictInsert_ne _ _ _ _ hb.1]

theorem seedCommits_lookup_some (h : String → Option Commit)
    (bs : List String) (b : String) (c : Commit) (hc : h b = some c) :
    ∀ d, b ∈ bs → dlookup (seedCommits h d bs) b = some c.hash := by
  induction bs with
  | nil => intro d hb; cases hb
  | cons b' rest ih =>
    intro d hb
    simp only [seedCommits]
    by_cases hmem : b ∈ rest
    · cases hc' : h b' <;> exact ih _ hmem
    · have hbb : b = b' := by
        rcases List.mem_cons.mp hb with h1 | h1
        · exact h1
        · exact absurd h1 hmem
      subst hbb
      rw [hc, seedCommits_lookup_not_mem h rest b _ hmem, dlookup_dictInsert_self]

/-! ### New-branch-loop lemmas -/

theorem newBranchLoop_fst (h : String → Option Commit) (now : Int)
    (bs : List String) : ∀ d, (newBranchLoop h now d bs).1 = seedCommits h d bs := by
  induction bs with
  | nil => intro d; rfl
  | cons b rest ih =>
    intro d
    simp only [newBranchLoop, seedCommits]
    exact ih _

theorem newBranchLoop_snd (h : String → Option Commit) (now : Int)
    (bs : List String) :
    ∀ d, (newBranchLoop h now d bs).2 = bs.map (fun b => Event.branch_creation b now) := by
  induction bs with
  | nil => intro d; rfl
  | cons b rest ih =>
    intro d
    simp only [newBranchLoop, List.map_cons]
    rw [ih]

/-! ### Commit-loop lemmas -/

theorem commitLoop_events_shape (h : String → Option Commit) (bs : List String) :
    ∀ d, ∀ e ∈ (commitLoop h d bs).2,
      ∃ b c, b ∈ bs ∧ h b = some c ∧ e = Event.commit b c.hash c.message c.timestamp := by
  induction bs with
  | nil => intro d e he; cases he
  | cons b rest ih =>
    intro d e he
    simp only [commitLoop] at he
    cases hc : h b with
    | none =>
      rw [hc] at he
      obtain ⟨b', c', hmem, hcb, hee⟩ := ih d e he
      exact ⟨b', c', List.mem_cons_of_mem _ hmem, hcb, hee⟩
    | some c =>
      rw [hc] at he
      simp only at he
      cases hl : dlookup d b with
      | none =>
        rw [hl] at he
        obtain ⟨b', c', hmem, hcb, hee⟩ := ih _ e he
        exact ⟨b', c', List.mem_cons_of_mem _ hmem, hcb, hee⟩
      | some h0 =>
        rw [hl] at he
        simp only at he
        by_cases heq : c.hash = h0
        · rw [if_pos heq] at he
          obtain ⟨b', c', hmem, hcb, hee⟩ := ih d e he
          exact ⟨b', c', List.mem_cons_of_mem _ hmem, hcb, hee⟩
        · rw [if_neg heq] at he
          simp only [List.mem_cons] at he
          rcases he with h1 | h1
          · exact ⟨b, c, List.mem_cons_self b rest, hc, h1⟩
          · obtain ⟨b', c', hmem, hcb, hee⟩ := ih _ e h1
            exact ⟨b', c', List.mem_cons_of_mem _ hmem, hcb, hee⟩

theorem commitLoop_countP_not_mem (h : String → Option Commit) (bs : List String)
    (d : List (String × String)) (b : String) (hb : b ∉ bs) :
    (commitLoop h d bs).2.countP (isCommitFor b) = 0 := by
  rw [List.countP_eq_zero]
  intro e he
  obtain ⟨b', c', hmem, _, hee⟩ := commitLoop_events_shape h bs d e he
  subst hee
  simp only [isCommitFor, beq_iff_eq, Bool.not_eq_true]
  intro hbb
  rw [hbb] at hmem
  exact hb hmem

theorem commitLoop_countP_creation (h : String → Option Commit) (bs : List String)
    (d : List (String × String)) (b : String) :
    (commitLoop h d bs).2.countP (isCreationFor b) = 0 := by
  rw [List.countP_eq_zero]
  intro e he
  obtain ⟨b', c', _, _, hee⟩ := commitLoop_events_shape h bs d e he
  subst hee
  simp [isCreationFor]

theorem commitLoop_countP_push (h : String → Option Commit) (bs : List String)
    (d : List (String × String)) (b : String) :
    (commitLoop h d bs).2.countP (isPushFor b) = 0 := by
  rw [List.countP_eq_zero]
  intro e he
  obtain ⟨b', c', _, _, hee⟩ := commitLoop_events_shape h bs d e he
  subst hee
  simp [isPushFor]

theorem commitLoop_preserve (h : String → Option Commit) (b : String) (bs : List String) :
    ∀ d, (∀ c, h b = some c → dlookup d b = some c.hash) →
      ((commitLoop h d bs).2.countP (isCommitFor b) = 0) ∧
      (∀ c, h b = some c → dlookup (commitLoop h d bs).1 b = some c.hash) := by
  induction bs with
  | nil => intro d hP; exact ⟨rfl, hP⟩
  | cons b' rest ih =>
    intro d hP
    simp only [commitLoop]
    cases hc : h b' with
    | none => exact ih d hP
    | some c' =>
      simp only
      cases hl : dlookup d b' with
      | none =>
        have hbb : b' ≠ b := by
          intro e
          subst e
          rw [hP c' hc] at hl
          cases hl
        have hP' : ∀ c, h b = some c → dlookup (dictInsert d b' c'.hash) b = some c.hash := by
          intro c hcb
          rw [dlookup_dictInsert_ne _ _ _ _ (Ne.symm hbb)]
          exact hP c hcb
        exact ih _ hP'
      | some h0 =>
        simp only
        by_cases heq : c'.hash = h0
        · rw [if_pos heq]
          exact ih d hP
        · rw [if_neg heq]
          have hbb : b' ≠ b := by
            intro e
            subst e
            rw [hP c' hc] at hl
            injection hl with hl'
            exact heq hl'
          have hP' : ∀ c, h b = some c → dlookup (dictInsert d b' c'.hash) b = some c.hash := by
            intro c hcb
            rw [dlookup_dictInsert_ne _ _ _ _ (Ne.symm hbb)]
            exact hP c hcb
          have hrec := ih _ hP'
          refine ⟨?_, hrec.2⟩
          rw [List.countP_cons_of_neg, hrec.1]
          simp [isCommitFor, hbb]

theorem commitLoop_known (h : String → Option Commit) (b : String) (c : Commit)
    (hc : h b = some c) (bs : List String) :
    ∀ d h0, bs.Nodup → b ∈ bs → dlookup d b = some h0 →
      ((commitLoop h d bs).2.countP (isCommitFor b) = if c.hash = h0 then 0 else 1) ∧
      (c.hash ≠ h0 → Event.commit b c.hash c.message c.timestamp ∈ (commitLoop h d bs).2) := by
  induction bs with
  | nil => intro d h0 _ hb; cases hb
  | cons b' rest ih =>
    intro d h0 hnd hb hl
    obtain ⟨hb'rest, hndrest⟩ := List.nodup_cons.mp hnd
    simp only [commitLoop]
    by_cases hbb : b' = b
    · subst hbb
      rw [hc]
      simp only
      rw [hl]
      simp only
      by_cases heq : c.hash = h0
      · rw [if_pos heq, if_pos heq]
        exact ⟨commitLoop_countP_not_mem h rest d b' hb'rest,
          fun hne => absurd heq hne⟩
      · rw [if_neg heq, if_neg heq]
        constructor
        · rw [List.countP_cons_of_pos, commitLoop_countP_not_mem h rest _ b' hb'rest]
          simp [isCommitFor]
        · intro _
          exact List.mem_cons_self _ _
    · have hbrest : b ∈ rest := by
        rcases List.mem_cons.mp hb with h1 | h1
        · exact absurd h1.symm hbb
        · exact h1
      cases hc' : h b' with
      | none => exact ih d h0 hndrest hbrest hl
      | some c' =>
        simp only
        cases hl' : dlookup d b' with
        | none =>
          have hl2 : dlookup (dictInsert d b' c'.hash) b = some h0 := by
            rw [dlookup_dictInsert_ne _ _ _ _ (Ne.symm hbb)]
            exact hl
          exact ih _ h0 hndrest hbrest hl2
        | some h0' =>
          simp only
          by_cases heq : c'.hash = h0'
          · rw [if_pos heq]
            exact ih d h0 hndrest hbrest hl
          · rw [if_neg heq]
            have hl2 : dlookup (dictInsert d b' c'.hash) b = some h0 := by
              rw [dlookup_dictInsert_ne _ _ _ _ (Ne.symm hbb)]
              exact hl
            have hrec := ih _ h0 hndrest hbrest hl2
            constructor
            · rw [List.countP_cons_of_neg, hrec.1]
              simp [isCommitFor, hbb]
            · intro hne
              exact List.mem_cons_of_mem _ (hrec.2 hne)

/-! ### Tick-level lemmas -/

theorem mem_newBranches (known bs : List String) (b : String) :
    b ∈ bs.filter (fun x => !(known.contains x)) ↔ b ∈ bs ∧ b ∉ known := by
  simp [List.mem_filter, List.contains]

theorem newBranchLoop_countP_creation (h : String → Option Commit) (now : Int)
    (bs : List String) (d : List (String × String)) (hnd : bs.Nodup) (b : String)
    (hb : b ∈ bs) :
    (newBranchLoop h now d bs).2.countP (isCreationFor b) = 1 := by
  rw [newBranchLoop_snd, List.countP_map]
  have hco : (isCreationFor b ∘ fun b' => Event.branch_creation b' now) = (· == b) := by
    funext b'
    rfl
  rw [hco, ← List.count_eq_countP]
  exact List.count_eq_one_of_mem hnd hb

theorem newBranchLoop_countP_commit (h : String → Option Commit) (now : Int)
    (bs : List String) (d : List (String × String)) (b : String) :
    (newBranchLoop h now d bs).2.countP (isCommitFor b) = 0 := by
  rw [newBranchLoop_snd, List.countP_eq_zero]
  intro e he
  obtain ⟨b', _, rfl⟩ := List.mem_map.mp he
  simp [isCommitFor]

theorem newBranchLoop_countP_push (h : String → Option Commit) (now : Int)
    (bs : List String) (d : List (String × String)) (b : String) :
    (newBranchLoop h now d bs).2.countP (isPushFor b) = 0 := by
  rw [newBranchLoop_snd, List.countP_eq_zero]
  intro e he
  obtain ⟨b', _, rfl⟩ := List.mem_map.mp he
  simp [isPushFor]

theorem tick_new_branch (st : MonitorState) (snap : Snapshot) (now : Int) (b : String)
    (hnd : snap.branches.Nodup) (hb : b ∈ snap.branches) (hk : b ∉ st.known_branches) :
    ((tick st snap now).2.countP (isCreationFor b) = 1) ∧
    ((tick st snap now).2.countP (isCommitFor b) = 0) ∧
    (∀ c, snap.head_of b = some c →
      dlookup (tick st snap now).1.branch_commits b = some c.hash) := by
  simp only [tick]
  set newB := snap.branches.filter (fun x => !(st.known_branches.contains x)) with hnewB
  have hbnew : b ∈ newB := by
    rw [hnewB]
    exact (mem_newBranches _ _ _).mpr ⟨hb, hk⟩
  have hnewnd : newB.Nodup := hnd.filter _
  have hP : ∀ c, snap.head_of b = some c →
      dlookup (newBranchLoop snap.head_of now st.branch_commits newB).1 b = some c.hash := by
    intro c hc
    rw [newBranchLoop_fst]
    exact seedCommits_lookup_some snap.head_of newB b c hc _ hbnew
  have hpres := commitLoop_preserve snap.head_of b snap.branches _ hP
  refine ⟨?_, ?_, hpres.2⟩
  · rw [List.countP_append, newBranchLoop_countP_creation _ _ _ _ hnewnd _ hbnew,
      commitLoop_countP_creation]
  · rw [List.countP_append, newBranchLoop_countP_commit, hpres.1]

theorem tick_known_branch (st : MonitorState) (snap : Snapshot) (now : Int)
    (b h0 : String) (c : Commit)
    (hnd : snap.branches.Nodup) (hb : b ∈ snap.branches) (hk : b ∈ st.known_branches)
    (hst : dlookup st.branch_commits b = some h0) (hc : snap.head_of b = some c) :
    ((tick st snap now).2.countP (isCommitFor b) = if c.hash = h0 then 0 else 1) ∧
    (c.hash ≠ h0 → Event.commit b c.hash c.message c.timestamp ∈ (tick st snap now).2) := by
  simp only [tick]
  set newB := snap.branches.filter (fun x => !(st.known_branches.contains x)) with hnewB
  have hbnot : b ∉ newB := by
    rw [hnewB]
    intro hmem
    exact ((mem_newBranches _ _ _).mp hmem).2 hk
  have hl1 : dlookup (newBranchLoop snap.head_of now st.branch_commits newB).1 b = some h0 := by
    rw [newBranchLoop_fst, seedCommits_lookup_not_mem _ _ _ _ hbnot]
    exact hst
  have hkn := commitLoop_known snap.head_of b c hc snap.branches _ h0 hnd hb hl1
  constructor
  · rw [List.countP_append, newBranchLoop_countP_commit, hkn.1, Nat.zero_add]
  · intro hne
    exact List.mem_append_right _ (hkn.2 hne)

/-! ### Event-content and push lemmas -/

theorem tick_commit_event_content (st : MonitorState) (snap : Snapshot) (now : Int)
    (b hh mm : String) (tt : Int)
    (hmem : Event.commit b hh mm tt ∈ (tick st snap now).2) :
    Option.map Commit.hash (snap.head_of b) = some hh ∧
    Option.map Commit.message (snap.head_of b) = some mm ∧
    Option.map Commit.timestamp (snap.head_of b) = some tt := by
  simp only [tick] at hmem
  rcases List.mem_append.mp hmem with h1 | h1
  · rw [newBranchLoop_snd] at h1
    obtain ⟨b', _, heq⟩ := List.mem_map.mp h1
    exact Event.noConfusion heq
  · obtain ⟨b', c', hmem', hcb, hee⟩ := commitLoop_events_shape _ _ _ _ h1
    injection hee with e1 e2 e3 e4
    subst e1
    rw [hcb]
    exact ⟨by simp [e2], by simp [e3], by simp [e4]⟩

theorem tick_countP_push (st : MonitorState) (snap : Snapshot) (now : Int) (b : String) :
    (tick st snap now).2.countP (isPushFor b) = 0 := by
  simp only [tick]
  rw [List.countP_append, newBranchLoop_countP_push, commitLoop_countP_push]

/-! ### Report lemmas -/

theorem passesFilters_none (e : EventRec) : passesFilters none none none e = true := rfl

theorem passesFilters_given (et : String) (s e : Int) (het : ¬et.isEmpty = true)
    (hs : s ≠ 0) (he : e ≠ 0) (r : EventRec) :
    passesFilters (some et) (some s) (some e) r
      = (r.event_type == some et && decide (s ≤ r.logged_at.getD 0)
          && decide (r.logged_at.getD 0 ≤ e)) := by
  have ht1 : truthyStr (some et) = true := by simp [truthyStr, het]
  have ht2 : truthyInt (some s) = true := by simp [truthyInt, hs]
  have ht3 : truthyInt (some e) = true := by simp [truthyInt, he]
  simp only [passesFilters, ht1, ht2, ht3, Bool.true_and, Option.getD_some]
  by_cases h1 : r.event_type = some et
  · by_cases h2 : s ≤ r.logged_at.getD 0
    · by_cases h3 : r.logged_at.getD 0 ≤ e
      · simp [h1, h2, h3, not_lt.mpr h2, not_lt.mpr h3]
      · simp [h1, h2, h3, not_lt.mpr h2, not_le.mp h3]
    · simp [h1, h2, not_le.mp h2]
  · simp [h1]

/-! ### Claim theorems -/

/-- Claim C1: for every tick and every branch that appears in the current
snapshot but was not previously known, the tick emits exactly one
branch-creation event and zero commit events for that branch, even when
the branch already has a head commit: the head hash is only stored in the
state, never reported as a commit. -/
theorem claim_C1 (st : MonitorState) (snap : Snapshot) (now : Int) (b : String)
    (hnd : snap.branches.Nodup) (hb : b ∈ snap.branches) (hk : b ∉ st.known_branches) :
    ((tick st snap now).2.countP (isCreationFor b) = 1) ∧
    ((tick st snap now).2.countP (isCommitFor b) = 0) ∧
    (∀ c, snap.head_of b = some c →
      dlookup (tick st snap now).1.branch_commits b = some c.hash) :=
  tick_new_branch st snap now b hnd hb hk

/-- Witness for C1: in a tick where `dev` (head `aaa1`) appears while only
`main` was known, exactly one creation event and no commit event are
emitted for `dev`, and its head hash is stored. -/
theorem claim_C1_witness :
    (["main", "dev"] : List String).Nodup ∧
    "dev" ∈ (["main", "dev"] : List String) ∧
    "dev" ∉ (["main"] : List String) ∧
    ((tick ⟨["main"], [("main", "bbb2")]⟩ ⟨["main", "dev"], sampleHead⟩ 7).2.countP
        (isCreationFor "dev") = 1) ∧
    ((tick ⟨["main"], [("main", "bbb2")]⟩ ⟨["main", "dev"], sampleHead⟩ 7).2.countP
        (isCommitFor "dev") = 0) ∧
    (dlookup (tick ⟨["main"], [("main", "bbb2")]⟩
        ⟨["main", "dev"], sampleHead⟩ 7).1.branch_commits "dev" = some "aaa1") := by
  have h := claim_C1 ⟨["main"], [("main", "bbb2")]⟩ ⟨["main", "dev"], sampleHead⟩ 7 "dev"
    (by decide) (by decide) (by decide)
  exact ⟨by decide, by decide, by decide, h.1, h.2.1, h.2.2 sampleCommitA rfl⟩

/-- Claim C2: for every branch known from a previous tick with a stored
hash, present in the current snapshot and with a successful head query, a
commit event is emitted iff the current head hash differs from the stored
one (count `1` vs `0`), and the emitted event carries the new head's hash,
message and timestamp. -/
theorem claim_C2 (st : MonitorState) (snap : Snapshot) (now : Int)
    (b h0 : String) (c : Commit)
    (hnd : snap.branches.Nodup) (hb : b ∈ snap.branches) (hk : b ∈ st.known_branches)
    (hst : dlookup st.branch_commits b = some h0) (hc : snap.head_of b = some c) :
    ((tick st snap now).2.countP (isCommitFor b) = if c.hash = h0 then 0 else 1) ∧
    (c.hash ≠ h0 → Event.commit b c.hash c.message c.timestamp ∈ (tick st snap now).2) :=
  tick_known_branch st snap now b h0 c hnd hb hk hst hc

/-- Witness for C2: `main` was stored at `aaa1` and its head moved to
`bbb2`, so exactly one commit event fires and it carries the new hash;
the same theorem at an unchanged branch gives count zero. -/
theorem claim_C2_witness :
    ((tick ⟨["main"], [("main", "aaa1")]⟩ ⟨["main"], sampleHead⟩ 9).2.countP
        (isCommitFor "main") = 1) ∧
    (Event.commit "main" "bbb2" "fix" 200
        ∈ (tick ⟨["main"], [("main", "aaa1")]⟩ ⟨["main"], sampleHead⟩ 9).2) ∧
    ((tick ⟨["main"], [("main", "bbb2")]⟩ ⟨["main"], sampleHead⟩ 9).2.countP
        (isCommitFor "main") = 0) := by
  have h := claim_C2 ⟨["main"], [("main", "aaa1")]⟩ ⟨["main"], sampleHead⟩ 9
    "main" "aaa1" sampleCommitB (by decide) (by decide) (by decide) (by decide) rfl
  have h2 := claim_C2 ⟨["main"], [("main", "bbb2")]⟩ ⟨["main"], sampleHead⟩ 9
    "main" "bbb2" sampleCommitB (by decide) (by decide) (by decide) (by decide) rfl
  refine ⟨?_, h.2 (by decide), ?_⟩
  · have h1 := h.1
    rw [if_neg (by decide)] at h1
    exact h1
  · have h3 := h2.1
    rw [if_pos (by decide)] at h3
    exact h3

/-- Claim C5: startup seeding from the first snapshot stores every
successfully queried head hash, records the snapshot's branches as known,
and logs zero events. -/
theorem claim_C5 (snap : Snapshot) :
    (initMonitor snap).2 = [] ∧
    (initMonitor snap).1.known_branches = snap.branches ∧
    ∀ b ∈ snap.branches, ∀ c, snap.head_of b = some c →
      dlookup (initMonitor snap).1.branch_commits b = some c.hash := by
  refine ⟨rfl, rfl, ?_⟩
  intro b hb c hc
  exact seedCommits_lookup_some snap.head_of snap.branches b c hc [] hb

/-- Witness for C5: the spec's first scenario — a first snapshot with
`main` at head `A` seeds the store to `main ↦ A` with an empty event
log. -/
theorem claim_C5_witness :
    (initMonitor snapMainA).2 = [] ∧
    (initMonitor snapMainA).1.known_branches = ["main"] ∧
    dlookup (initMonitor snapMainA).1.branch_commits "main" = some "A" := by
  have h := claim_C5 snapMainA
  exact ⟨h.1, h.2.1, h.2.2 "main" (by decide) ⟨"A", 100, "init"⟩ rfl⟩

/-- Claim C6: the scheduler loop attempts every scheduled tick: each tick
body runs inside the catch-and-log wrapper `guardTick`, so a raised tick
never terminates the loop and the number of ticks attempted equals the
length of the schedule, whatever mix of successes and raises it holds. -/
theorem claim_C6 (bodies : List (MonitorState → TickOutcome)) (st : MonitorState) :
    (monitorLoop bodies st).2 = bodies.length := by
  induction bodies generalizing st with
  | nil => rfl
  | cons body rest ih =>
    simp only [monitorLoop, List.length_cons, ih]

/-- Claim C10: a tick whose branch listing is empty (failed or empty
`git branch` output) replaces the known set by the empty set while
retaining the hash store and logging nothing; on the next tick every
listed branch is re-emitted as a branch-creation event, with zero commit
events for it. -/
theorem claim_C10 (st0 : MonitorState) (h1 : String → Option Commit)
    (snap2 : Snapshot) (now1 now2 : Int) (hnd : snap2.branches.Nodup) :
    (tick st0 ⟨get_current_branches none, h1⟩ now1
        = (⟨[], st0.branch_commits⟩, [])) ∧
    ∀ b ∈ snap2.branches,
      ((tick ⟨[], st0.branch_commits⟩ snap2 now2).2.countP (isCreationFor b) = 1) ∧
      ((tick ⟨[], st0.branch_commits⟩ snap2 now2).2.countP (isCommitFor b) = 0) := by
  constructor
  · rfl
  · intro b hb
    have h := tick_new_branch ⟨[], st0.branch_commits⟩ snap2 now2 b hnd hb
      (List.not_mem_nil b)
    exact ⟨h.1, h.2.1⟩

/-- Witness for C10: `main` was known with stored hash `A`; an
empty-listing tick empties the known set but keeps the store, and the next
tick re-emits exactly one creation event and no commit event for `main`. -/
theorem claim_C10_witness :
    (["main"] : List String).Nodup ∧
    (tick ⟨["main"], [("main", "A")]⟩ ⟨get_current_branches none, sampleHead⟩ 5
        = (⟨[], [("main", "A")]⟩, [])) ∧
    ((tick ⟨[], [("main", "A")]⟩ snapMainA 6).2.countP (isCreationFor "main") = 1) ∧
    ((tick ⟨[], [("main", "A")]⟩ snapMainA 6).2.countP (isCommitFor "main") = 0) := by
  have h := claim_C10 ⟨["main"], [("main", "A")]⟩ sampleHead snapMainA 5 6 (by decide)
  exact ⟨by decide, h.1, (h.2 "main" (by decide)).1, (h.2 "main" (by decide)).2⟩

/-- Claim C3: on every tick, a branch gets exactly one push event iff its
remote head differs from its local head at diff time, and none when they
agree; the count is given by the heads alone, independently of the monitor
state and hence of whether a commit event also fired for the branch in the
same tick. -/
theorem claim_C3 (st : MonitorState) (snap : Snapshot)
    (localHead remoteHead : String → Option String) (now : Int) (b : String)
    (hnd : snap.branches.Nodup) (hb : b ∈ snap.branches) :
    (tickWithPush st snap localHead remoteHead now).2.countP (isPushFor b)
      = if remoteHead b = localHead b then 0 else 1 := by
  simp only [tickWithPush]
  rw [List.countP_append, tick_countP_push, Nat.zero_add, List.countP_map]
  have hco : (isPushFor b ∘ fun b' => Event.push b' now) = (· == b) := by
    funext b'
    rfl
  rw [hco, ← List.count_eq_countP]
  simp only [divergentBranches]
  by_cases hdiv : remoteHead b = localHead b
  · rw [if_pos hdiv, List.count_eq_zero]
    intro hmem
    have hpred := (List.mem_filter.mp hmem).2
    simp [hdiv] at hpred
  · rw [if_neg hdiv, List.count_filter (by simp [bne_iff_ne, hdiv])]
    exact List.count_eq_one_of_mem hnd hb

/-- Witness for C3: `main` diverges (remote `X` vs local `Y`) and receives
exactly one push event while a commit event fires in the same tick; `dev`
agrees and receives none. -/
theorem claim_C3_witness :
    (["main", "dev"] : List String).Nodup ∧
    "main" ∈ (["main", "dev"] : List String) ∧
    ((tickWithPush ⟨["main", "dev"], [("main", "aaa1"), ("dev", "aaa1")]⟩
        ⟨["main", "dev"], sampleHead⟩
        (fun _ => some "Y") (fun b => if b = "main" then some "X" else some "Y")
        9).2.countP (isPushFor "main") = 1) ∧
    ((tickWithPush ⟨["main", "dev"], [("main", "aaa1"), ("dev", "aaa1")]⟩
        ⟨["main", "dev"], sampleHead⟩
        (fun _ => some "Y") (fun b => if b = "main" then some "X" else some "Y")
        9).2.countP (isPushFor "dev") = 0) ∧
    ((tickWithPush ⟨["main", "dev"], [("main", "aaa1"), ("dev", "aaa1")]⟩
        ⟨["main", "dev"], sampleHead⟩
        (fun _ => some "Y") (fun b => if b = "main" then some "X" else some "Y")
        9).2.countP (isCommitFor "main") = 1) := by
  have h1 := claim_C3 ⟨["main", "dev"], [("main", "aaa1"), ("dev", "aaa1")]⟩
    ⟨["main", "dev"], sampleHead⟩ (fun _ => some "Y")
    (fun b => if b = "main" then some "X" else some "Y") 9 "main" (by decide) (by decide)
  have h2 := claim_C3 ⟨["main", "dev"], [("main", "aaa1"), ("dev", "aaa1")]⟩
    ⟨["main", "dev"], sampleHead⟩ (fun _ => some "Y")
    (fun b => if b = "main" then some "X" else some "Y") 9 "dev" (by decide) (by decide)
  rw [if_neg (by decide)] at h1
  rw [if_pos (by decide)] at h2
  exact ⟨by decide, by decide, h1, h2, by decide⟩

/-- Claim C4 (amended): every emitted commit event carries the new head
commit's hash, message and timestamp — and nothing more: the record has no
developer and no changed-files field. -/
theorem claim_C4 (st : MonitorState) (snap : Snapshot) (now : Int)
    (b hh mm : String) (tt : Int)
    (hmem : Event.commit b hh mm tt ∈ (tick st snap now).2) :
    Option.map Commit.hash (snap.head_of b) = some hh ∧
    Option.map Commit.message (snap.head_of b) = some mm ∧
    Option.map Commit.timestamp (snap.head_of b) = some tt :=
  tick_commit_event_content st snap now b hh mm tt hmem

/-- Witness for C4: the commit event emitted when `main` moves from `aaa1`
to `bbb2` carries exactly the head's hash, message and timestamp. -/
theorem claim_C4_witness :
    (Event.commit "main" "bbb2" "fix" 200
        ∈ (tick ⟨["main"], [("main", "aaa1")]⟩ ⟨["main"], sampleHead⟩ 9).2) ∧
    Option.map Commit.hash (sampleHead "main") = some "bbb2" ∧
    Option.map Commit.message (sampleHead "main") = some "fix" ∧
    Option.map Commit.timestamp (sampleHead "main") = some 200 := by
  have h := claim_C4 ⟨["main"], [("main", "aaa1")]⟩ ⟨["main"], sampleHead⟩ 9
    "main" "bbb2" "fix" 200 (by decide)
  exact ⟨by decide, h.1, h.2.1, h.2.2⟩

/-- Counterexample for C4 as stated: the commit record `monitor_repo`
builds holds only `event_type`, `branch`, `commit_hash`, `commit_message`
and `commit_timestamp`; at a concrete tick emitting one commit event,
neither a developer nor a changed-files key is present. -/
theorem claim_C4_counterexample :
    ((tick ⟨["main"], [("main", "aaa1")]⟩ ⟨["main"], sampleHead⟩ 9).2
        = [Event.commit "main" "bbb2" "fix" 200]) ∧
    "developer" ∉ eventRecordKeys (Event.commit "main" "bbb2" "fix" 200) ∧
    "files_changed" ∉ eventRecordKeys (Event.commit "main" "bbb2" "fix" 200) := by
  exact ⟨by decide, by decide, by decide⟩

/-- Claim C7: read-back with no filters yields exactly the records of the
parseable, non-blank lines, in file order: a line that fails to parse is
skipped and every well-formed line before and after it still appears. -/
theorem claim_C7 (parse : String → Option EventRec) (lines : List String) :
    generate_report parse none none none none lines
      = lines.filterMap (fun l => if (pyStrip l).isEmpty then none else parse (pyStrip l)) := by
  induction lines with
  | nil => rfl
  | cons line rest ih =>
    simp only [generate_report, List.filterMap_cons]
    by_cases he : (pyStrip line).isEmpty
    · simp [he, ih]
    · cases hp : parse (pyStrip line) with
      | none => simp [he, hp, ih]
      | some e => simp [he, hp, passesFilters_none, ih]

/-- Claim C8 (amended): with a non-empty `event_type` filter and a nonzero
closed `logged_at` range, the report equals the unfiltered report filtered
conjunctively by type equality and closed-interval membership, preserving
the original order; Python-falsy filter values (`""`, `0`) disable the
corresponding filter instead. -/
theorem claim_C8 (parse : String → Option EventRec) (lines : List String)
    (et : String) (s e : Int) (het : ¬et.isEmpty = true) (hs : s ≠ 0) (he : e ≠ 0) :
    generate_report parse none (some et) (some s) (some e) lines
      = (generate_report parse none none none none lines).filter
          (fun r => r.event_type == some et && decide (s ≤ r.logged_at.getD 0)
              && decide (r.logged_at.getD 0 ≤ e)) := by
  induction lines with
  | nil => rfl
  | cons line rest ih =>
    simp only [generate_report]
    by_cases hemp : (pyStrip line).isEmpty
    · simp [hemp, ih]
    · cases hp : parse (pyStrip line) with
      | none => simp [hemp, hp, ih]
      | some r =>
        simp only [hemp, hp, Bool.false_eq_true, if_false, passesFilters_none, if_true]
        rw [passesFilters_given et s e het hs he r]
        by_cases hpass : (r.event_type == some et && decide (s ≤ r.logged_at.getD 0)
            && decide (r.logged_at.getD 0 ≤ e)) = true
        · simp [hpass, List.filter_cons, ih]
        · simp [hpass, List.filter_cons, ih]

/-- Witness for C8: concrete non-empty type filter `"commit"` and range
`[1, 100]` over a two-record log. -/
theorem claim_C8_witness :
    ¬("commit".isEmpty = true) ∧ (1 : Int) ≠ 0 ∧ (100 : Int) ≠ 0 ∧
    generate_report sampleParse none (some "commit") (some 1) (some 100)
        ["cline", "pline"]
      = (generate_report sampleParse none none none none ["cline", "pline"]).filter
          (fun r => r.event_type == some "commit"
              && decide ((1 : Int) ≤ r.logged_at.getD 0)
              && decide (r.logged_at.getD 0 ≤ (100 : Int))) :=
  ⟨by decide, by decide, by decide,
    claim_C8 sampleParse ["cline", "pline"] "commit" 1 100 (by decide) (by decide)
      (by decide)⟩

/-- Counterexample for C8 as stated: the empty string is a given
`event_type` filter, yet a record whose `event_type` is `"commit"` — which
does not equal the filter — is still returned, because Python treats the
empty-string filter as falsy and skips the check. -/
theorem claim_C8_counterexample :
    generate_report sampleParse none (some "") none none ["cline"]
      = [⟨some "commit", some 10, "c1"⟩] ∧
    (⟨some "commit", some 10, "c1"⟩ : EventRec).event_type ≠ some "" := by
  exact ⟨rfl, by decide⟩

/-- Claim C9: a repository path whose absolute form is not a directory or
lacks a `.git` directory makes startup exit with code 1 (non-zero) before
monitoring begins; every exit is non-zero; a valid path starts monitoring
on the absolute path. -/
theorem claim_C9 (env : Env) (path : String) :
    (¬(env.isDir (env.abspath path) = true ∧
        env.isDir (env.abspath path ++ "/.git") = true) →
      main_start env path = StartOutcome.exited 1) ∧
    (∀ code, main_start env path = StartOutcome.exited code → code ≠ 0) ∧
    (env.isDir (env.abspath path) = true →
      env.isDir (env.abspath path ++ "/.git") = true →
      main_start env path = StartOutcome.monitoring (env.abspath path)) := by
  simp only [main_start, validate_repo_path]
  by_cases hd1 : env.isDir (env.abspath path) = true
  · by_cases hd2 : env.isDir (env.abspath path ++ "/.git") = true
    · refine ⟨fun hinv => absurd ⟨hd1, hd2⟩ hinv, ?_, fun _ _ => by simp [hd1, hd2]⟩
      intro code hcode
      simp [hd1, hd2] at hcode
    · refine ⟨fun _ => by simp [hd1, hd2], ?_, fun _ h2 => absurd h2 hd2⟩
      intro code hcode
      simp [hd1, hd2] at hcode
      omega
  · refine ⟨fun _ => by simp [hd1], ?_, fun h1 _ => absurd h1 hd1⟩
    intro code hcode
    simp [hd1] at hcode
    omega

/-- Witness for C9: on a filesystem with no directories startup exits with
code 1; on one where the path and its `.git` exist, monitoring starts on
the absolute path. -/
theorem claim_C9_witness :
    main_start envInvalid "repo" = StartOutcome.exited 1 ∧ (1 : Nat) ≠ 0 ∧
    main_start envValid "repo" = StartOutcome.monitoring "/abs/repo" :=
  ⟨(claim_C9 envInvalid "repo").1 (by decide),
    (claim_C9 envInvalid "repo").2.1 1 ((claim_C9 envInvalid "repo").1 (by decide)),
    (claim_C9 envValid "repo").2.2 rfl rfl⟩

end GitMonitor
